import Mathlib

/-!
Shallow embedding of the strategy-execution engine of `btfd.py`.

Conventions of the embedding:
* Python `Decimal` values are modelled as exact rationals (`ℚ`); the
  28-significant-digit context rounding of `Decimal` arithmetic is outside the
  model, so "equal up to rounding epsilon" statements become exact equalities.
* Python `round` on a `Decimal` (no `ndigits`) rounds half-to-even to an
  integer; `round(x, 2)` rounds half-to-even to two decimal places.  Both are
  modelled explicitly by `roundHalfEven` / `round2`.
* fallible Python code (raised exceptions) is modelled with `Option`: `none`
  is a raised error, `some` a normal return.
* strings are modelled as `List Char`; non-numeric timestamp fields
  (`startTime`, `created`) never enter any computation and are omitted from
  the candle/snapshot records.
-/

/-- Python `round` applied to a `Decimal` with no `ndigits` argument:
round to the nearest integer, ties to the even integer (`ROUND_HALF_EVEN`). -/
def roundHalfEven (q : ℚ) : ℤ :=
  if q - ⌊q⌋ < 1/2 then ⌊q⌋
  else if 1/2 < q - ⌊q⌋ then ⌊q⌋ + 1
  else if ⌊q⌋ % 2 = 0 then ⌊q⌋ else ⌊q⌋ + 1

/-- Python `round(x, 2)`: round half-to-even to two decimal places. -/
def round2 (q : ℚ) : ℚ := (roundHalfEven (q * 100) : ℚ) / 100

/-- `[0-9]` of the regular expression, i.e. Python's digit class restricted to
ASCII decimal digits; `Char.isDigit` is exactly that test. -/
def isDigitChar (c : Char) : Bool := c.isDigit

/-- Python `int` applied to a non-empty decimal-digit string. -/
def digitsToNat (l : List Char) : ℕ :=
  l.foldl (fun acc c => acc * 10 + (c.toNat - ('0').toNat)) 0

/-- The character class of the compiled pattern `([h|m|s|d])` in
`td_re = re.compile(r"(^[0-9]+)([h|m|s|d])")`: inside a character class the
bar is a literal, so the class accepts `h`, `|`, `m`, `s`, `d`. -/
def td_re_unit_class : List Char := ['h', '|', 'm', 's', 'd']

/-- `td_re.match(input_str)`: a greedy non-empty digit prefix followed by one
character of `td_re_unit_class`, anchored at the start; trailing characters
are ignored.  `none` models a failed match (Python returns `None`). -/
def td_re_match (l : List Char) : Option (ℕ × Char) :=
  match l.takeWhile isDigitChar, l.dropWhile isDigitChar with
  | [], _ => none
  | _, [] => none
  | ds, c :: _ =>
    if c ∈ td_re_unit_class then some (digitsToNat ds, c) else none

/-- The `unit_map` dict of `btfd.py`; lookup of an absent key raises
`KeyError`, modelled by `none`. -/
def unit_map (c : Char) : Option ℕ :=
  if c = 's' then some 1
  else if c = 'm' then some 60
  else if c = 'h' then some (60 * 60)
  else if c = 'd' then some (24 * 60 * 60)
  else none

/-- `get_time_in_seconds` of `btfd.py`.  A failed regex match makes
`m.groups()` raise (`m` is `None`); a matched unit absent from `unit_map`
raises `KeyError`; both failures are `none`. -/
def get_time_in_seconds (input_str : List Char) : Option ℕ :=
  match td_re_match input_str with
  | none => none
  | some (num, unit) => (unit_map unit).map (fun sec => num * sec)

/-- `calculate_position_sizing` of `btfd.py`.  `range(no_of_levels)` is empty
for `no_of_levels ≤ 0`; `Decimal(0) ** 0` raises `InvalidOperation` (hit
whenever the multiple is zero and the range is non-empty, since `i = 0` is
always in the range); a zero total weight makes the `Decimal` division raise
(`DivisionByZero` / `DivisionUndefined`).  Every raise is modelled by `none`. -/
def calculate_position_sizing (balance : ℚ) (no_of_levels : ℤ)
    (iceberg_multiple : ℚ) : Option (List ℚ) :=
  if iceberg_multiple = 0 ∧ no_of_levels.toNat ≠ 0 then none
  else
    let levels := (List.range no_of_levels.toNat).map (fun i => iceberg_multiple ^ i)
    let total_position_weights := levels.sum
    if total_position_weights = 0 then none
    else
      let position_size := balance / total_position_weights
      some (levels.map (fun i => i * position_size))

/-- One day of OHLC history (`history_ohlc` entries), price fields only; the
`startTime` timestamp never enters a computation and is omitted. -/
structure Candle where
  high : ℚ
  low : ℚ
  close : ℚ
  «open» : ℚ
deriving DecidableEq

/-- The fields of `backend.get_market_summary(pair)` that the strategy reads;
the `created` timestamp never enters a computation and is omitted. -/
structure MarketSnapshot where
  highPrice : ℚ
  lowPrice : ℚ
  lastTradedPrice : ℚ
deriving DecidableEq

/-- The synthetic "today" candle inserted at index 0 of `history_ohlc`
(lines 80-86 of `btfd.py`): open = close = last traded price. -/
def synthetic_candle (snap : MarketSnapshot) : Candle :=
  { high := snap.highPrice, low := snap.lowPrice,
    close := snap.lastTradedPrice, «open» := snap.lastTradedPrice }

/-- The 4-field average of one candle, `(high + low + close + open) / 4`. -/
def candle_mid (c : Candle) : ℚ := (c.high + c.low + c.close + c.«open») / 4

/-- Lines 88-93 of `btfd.py`: the mean of the candle mids over the synthetic
candle plus the history, rounded half-to-even to an integer. -/
def rounded_avg_ohlc (history_ohlc : List Candle) (snap : MarketSnapshot) : ℤ :=
  let candles := synthetic_candle snap :: history_ohlc
  roundHalfEven ((candles.map candle_mid).sum / candles.length)

/-- Lines 88-96 of `btfd.py`: the base price after the anti-chase clamp:
if the rounded average is at or above the last traded price it is replaced
by `round(Decimal('0.99') * last_traded_price)`. -/
def base_price_estimate (history_ohlc : List Candle) (snap : MarketSnapshot) : ℤ :=
  let avg := rounded_avg_ohlc history_ohlc snap
  if (avg : ℚ) ≥ snap.lastTradedPrice then
    roundHalfEven (99/100 * snap.lastTradedPrice)
  else avg

/-- Line 102 of `btfd.py`:
`step_value = math.floor(avg_ohlc_price * (Decimal(backend.level_step_perc) / 100))`. -/
def step_value (base_price : ℤ) (level_step_perc : ℚ) : ℤ :=
  ⌊(base_price : ℚ) * (level_step_perc / 100)⌋

/-- Lines 103-106 of `btfd.py`: the price of ladder level `i`,
`avg_ohlc_price - (i * step_value)`. -/
def ladder_price (base_price : ℤ) (level_step_perc : ℚ) (i : ℕ) : ℤ :=
  base_price - i * step_value base_price level_step_perc

/-- Line 111 of `btfd.py`:
`quantity = math.floor(size/price * 10**quantity_precision) / 10**quantity_precision`. -/
def level_quantity (alloc : ℚ) (price : ℤ) (quantity_precision : ℕ) : ℚ :=
  (⌊alloc / (price : ℚ) * 10 ^ quantity_precision⌋ : ℚ) / 10 ^ quantity_precision

/-- Lines 103-131 of `btfd.py`: the (price, quantity) pairs actually passed to
`place_buy_order`: one candidate per allocation index, dropped (skipped, not
clamped and not redistributed) when its truncated quantity is below
`min_order_size`. -/
def build_ladder (base_price : ℤ) (level_step_perc : ℚ) (position_sizes : List ℚ)
    (quantity_precision : ℕ) (min_order_size : ℚ) : List (ℤ × ℚ) :=
  (List.range position_sizes.length).filterMap (fun i =>
    let price := ladder_price base_price level_step_perc i
    let quantity := level_quantity (position_sizes.getD i 0) price quantity_precision
    if quantity < min_order_size then none else some (price, quantity))

/-- Line 72 of `btfd.py`: `balance = round(backend.get_usable_fiat_balance(), 2)` —
the balance the cycle works with is the gateway value rounded to 2 decimals. -/
def strategy_balance (raw_balance : ℚ) : ℚ := round2 raw_balance

/-- Lines 72-73 of `btfd.py`: the position sizes of one cycle are computed
from the rounded balance, not the raw gateway value. -/
def strategy_position_sizes (raw_balance : ℚ) (no_of_levels : ℤ)
    (iceberg_multiple : ℚ) : Option (List ℚ) :=
  calculate_position_sizing (strategy_balance raw_balance) no_of_levels iceberg_multiple

/-- The leading-token pattern `^([0-9]+)([smhd])` stated by the specification
for the TimeSpec parser (spec §4.1), as a predicate on the input: a non-empty
digit prefix followed immediately by one of `s`, `m`, `h`, `d`. -/
def spec_leading_token_matches (l : List Char) : Bool :=
  match l.takeWhile isDigitChar, l.dropWhile isDigitChar with
  | [], _ => false
  | _, [] => false
  | _, c :: _ => if c ∈ (['s', 'm', 'h', 'd'] : List Char) then true else false

/-! ## Helper lemmas (shared by several claim theorems) -/

/-- The half-even rounding never exceeds its argument by more than `1/2`. -/
theorem roundHalfEven_le_add_half (q : ℚ) : (roundHalfEven q : ℚ) ≤ q + 1/2 := by
  have h1 : (⌊q⌋ : ℚ) ≤ q := Int.floor_le q
  have h2 : q < ⌊q⌋ + 1 := Int.lt_floor_add_one q
  unfold roundHalfEven
  split_ifs with ha hb hc <;> push_cast <;> linarith

/-- The half-even rounding never undershoots its argument by more than `1/2`. -/
theorem sub_half_le_roundHalfEven (q : ℚ) : q - 1/2 ≤ (roundHalfEven q : ℚ) := by
  have h1 : (⌊q⌋ : ℚ) ≤ q := Int.floor_le q
  have h2 : q < ⌊q⌋ + 1 := Int.lt_floor_add_one q
  unfold roundHalfEven
  split_ifs with ha hb hc <;> push_cast <;> linarith

/-- Half-even rounding moves its argument by at most `1/2`. -/
theorem abs_roundHalfEven_sub_le (q : ℚ) : |(roundHalfEven q : ℚ) - q| ≤ 1/2 := by
  rw [abs_le]
  constructor
  · linarith [sub_half_le_roundHalfEven q]
  · linarith [roundHalfEven_le_add_half q]

/-- `takeWhile`/`dropWhile` split of a digit block followed by a non-digit. -/
theorem takeWhile_append_cons (p : Char → Bool) (l : List Char) (u : Char)
    (r : List Char) (hl : ∀ c ∈ l, p c = true) (hu : p u = false) :
    (l ++ u :: r).takeWhile p = l ∧ (l ++ u :: r).dropWhile p = u :: r := by
  induction l with
  | nil => simp [List.takeWhile_cons, List.dropWhile_cons, hu]
  | cons a t ih =>
    have ha : p a = true := hl a (List.mem_cons_self a t)
    have ht : ∀ c ∈ t, p c = true := fun c hc => hl c (List.mem_cons_of_mem a hc)
    obtain ⟨h1, h2⟩ := ih ht
    simp [List.takeWhile_cons, List.dropWhile_cons, ha, h1, h2]

/-- The geometric weight list has a positive sum when it is non-empty and the
multiple is positive. -/
theorem weights_sum_pos (n : ℕ) (hn : n ≠ 0) (m : ℚ) (hm : 0 < m) :
    0 < (((List.range n).map (fun i => m ^ i)).sum) := by
  apply List.sum_pos
  · intro a ha
    simp only [List.mem_map, List.mem_range] at ha
    obtain ⟨i, _, rfl⟩ := ha
    exact pow_pos hm i
  · simp [hn, List.range_eq_nil]

/-- For positive multiple and at least one level, `calculate_position_sizing`
returns the weight list rescaled by `balance / total_weight`. -/
theorem calculate_position_sizing_eq (b : ℚ) (lv : ℤ) (m : ℚ)
    (hlv : 1 ≤ lv) (hm : 0 < m) :
    calculate_position_sizing b lv m =
      some (((List.range lv.toNat).map (fun i => m ^ i)).map
        (fun w => w * (b / ((List.range lv.toNat).map (fun i => m ^ i)).sum))) := by
  have hn : lv.toNat ≠ 0 := by omega
  have hpos := weights_sum_pos lv.toNat hn m hm
  unfold calculate_position_sizing
  rw [if_neg (fun h => hm.ne' h.1), if_neg hpos.ne']

/-- Summing a rescaled list. -/
theorem list_sum_map_mul (l : List ℚ) (c : ℚ) :
    (l.map (fun x => x * c)).sum = l.sum * c := by
  induction l with
  | nil => simp
  | cons a t ih => simp [ih, add_mul]

/-- Sizing conservation over the exact-rational model: the allocations exist
and sum to the input balance whenever the multiple is positive. -/
theorem calculate_position_sizing_sum (b : ℚ) (lv : ℤ) (m : ℚ)
    (hlv : 1 ≤ lv) (hm : 0 < m) :
    ∃ allocs, calculate_position_sizing b lv m = some allocs ∧ allocs.sum = b := by
  refine ⟨_, calculate_position_sizing_eq b lv m hlv hm, ?_⟩
  have hn : lv.toNat ≠ 0 := by omega
  have hpos := weights_sum_pos lv.toNat hn m hm
  rw [list_sum_map_mul]
  rw [mul_comm]
  exact div_mul_cancel₀ b hpos.ne'

/-- Truncated quantities never spend more than the allocation they come
from, as long as the level price is positive. -/
theorem level_quantity_mul_le (alloc : ℚ) (price : ℤ) (qp : ℕ)
    (hp : 0 < price) :
    level_quantity alloc price qp * price ≤ alloc := by
  have ht : (0:ℚ) < 10 ^ qp := by positivity
  have hpq : (0:ℚ) < (price:ℚ) := by exact_mod_cast hp
  have h2 : level_quantity alloc price qp ≤ alloc / price := by
    unfold level_quantity
    rw [div_le_iff₀ ht]
    exact Int.floor_le _
  calc level_quantity alloc price qp * price
      ≤ (alloc / price) * price := mul_le_mul_of_nonneg_right h2 hpq.le
    _ = alloc := div_mul_cancel₀ alloc hpq.ne'

/-- Membership in the built ladder: exactly the level indices whose truncated
quantity passes the minimum-size test, carrying their untouched price and
quantity. -/
theorem mem_build_ladder {base : ℤ} {sp : ℚ} {allocs : List ℚ} {qp : ℕ}
    {ms : ℚ} {pq : ℤ × ℚ} :
    pq ∈ build_ladder base sp allocs qp ms ↔
    ∃ i, i < allocs.length ∧
      ms ≤ level_quantity (allocs.getD i 0) (ladder_price base sp i) qp ∧
      pq = (ladder_price base sp i,
            level_quantity (allocs.getD i 0) (ladder_price base sp i) qp) := by
  unfold build_ladder
  rw [List.mem_filterMap]
  constructor
  · rintro ⟨i, hi, h⟩
    rw [List.mem_range] at hi
    dsimp only at h
    by_cases hq : level_quantity (allocs.getD i 0) (ladder_price base sp i) qp < ms
    · rw [if_pos hq] at h
      exact Option.noConfusion h
    · rw [if_neg hq, Option.some_inj] at h
      exact ⟨i, hi, not_lt.mp hq, h.symm⟩
  · rintro ⟨i, hi, hq, rfl⟩
    refine ⟨i, List.mem_range.mpr hi, ?_⟩
    dsimp only
    rw [if_neg (not_lt.mpr hq)]

/-! ## Claim theorems -/

/-- C1: Position sizing conservation — for every balance ≥ 0, integer
levels ≥ 1 and multiple ≥ 1, the allocations returned by
`calculate_position_sizing` exist and sum to the input balance (exactly, in
the exact-rational model of `Decimal`). -/
theorem C1_sizing_conservation (balance : ℚ) (no_of_levels : ℤ)
    (iceberg_multiple : ℚ) (_hb : 0 ≤ balance) (hlv : 1 ≤ no_of_levels)
    (hm : 1 ≤ iceberg_multiple) :
    ∃ allocs, calculate_position_sizing balance no_of_levels iceberg_multiple
        = some allocs ∧ allocs.sum = balance :=
  calculate_position_sizing_sum balance no_of_levels iceberg_multiple hlv
    (zero_lt_one.trans_le hm)

/-- C1 witness: balance 1000, 3 levels, multiple 2. -/
theorem C1_witness :
    (0:ℚ) ≤ 1000 ∧ (1:ℤ) ≤ 3 ∧ (1:ℚ) ≤ 2 ∧
    ∃ allocs, calculate_position_sizing 1000 3 2 = some allocs ∧
      allocs.sum = 1000 :=
  ⟨by norm_num, by norm_num, by norm_num,
    C1_sizing_conservation 1000 3 2 (by norm_num) (by norm_num) (by norm_num)⟩

/-- C2 counterexample: with no history and a market snapshot whose high, low
and last traded price are all 50, the rounded average (50) is ≥ the last
traded price, yet the estimator returns `round(0.99 * 50) = round(49.5) = 50`
(half-to-even), which is NOT strictly less than the last traded price. -/
theorem C2_counterexample :
    (rounded_avg_ohlc [] ⟨50, 50, 50⟩ : ℚ) ≥
        (MarketSnapshot.mk 50 50 50).lastTradedPrice ∧
    base_price_estimate [] ⟨50, 50, 50⟩ = 50 ∧
    ¬ ((base_price_estimate [] ⟨50, 50, 50⟩ : ℚ) <
        (MarketSnapshot.mk 50 50 50).lastTradedPrice) := by
  have havg : rounded_avg_ohlc [] ⟨50, 50, 50⟩ = 50 := by
    unfold rounded_avg_ohlc synthetic_candle candle_mid roundHalfEven
    norm_num
  have hout : base_price_estimate [] ⟨50, 50, 50⟩ = 50 := by
    unfold base_price_estimate rounded_avg_ohlc synthetic_candle candle_mid roundHalfEven
    norm_num
  refine ⟨by rw [havg]; norm_num, hout, by rw [hout]; norm_num⟩

/-- C2 (amended): if the rounded 4-field-average base price is ≥ the last
traded price, the estimator output equals `round(0.99 * last_traded_price)`;
that output is strictly less than the last traded price whenever the last
traded price exceeds 50 fiat units (for smaller prices the half-even rounding
can bring `0.99 * last_traded_price` back up to the last traded price). -/
theorem C2_anti_chase_clamp (history_ohlc : List Candle) (snap : MarketSnapshot)
    (h : (rounded_avg_ohlc history_ohlc snap : ℚ) ≥ snap.lastTradedPrice) :
    base_price_estimate history_ohlc snap
        = roundHalfEven (99/100 * snap.lastTradedPrice) ∧
    (50 < snap.lastTradedPrice →
      (base_price_estimate history_ohlc snap : ℚ) < snap.lastTradedPrice) := by
  have heq : base_price_estimate history_ohlc snap
      = roundHalfEven (99/100 * snap.lastTradedPrice) := by
    unfold base_price_estimate
    rw [if_pos h]
  refine ⟨heq, fun h50 => ?_⟩
  rw [heq]
  have hb := roundHalfEven_le_add_half (99/100 * snap.lastTradedPrice)
  linarith

/-- C2 witness: the spec's dip-clamp scenario — last traded price 100,
historical average above it, output 99 < 100. -/
theorem C2_witness :
    (rounded_avg_ohlc [] ⟨105, 105, 100⟩ : ℚ) ≥ 100 ∧
    base_price_estimate [] ⟨105, 105, 100⟩ = roundHalfEven (99/100 * 100) ∧
    ((50:ℚ) < 100 → (base_price_estimate [] ⟨105, 105, 100⟩ : ℚ) < 100) := by
  have havg : rounded_avg_ohlc [] ⟨105, 105, 100⟩ = 102 := by
    unfold rounded_avg_ohlc synthetic_candle candle_mid roundHalfEven
    norm_num
  have h := C2_anti_chase_clamp [] ⟨105, 105, 100⟩ (by rw [havg]; norm_num)
  exact ⟨by rw [havg]; norm_num, h.1, h.2⟩

/-- C3: No overspend per level — every (price, quantity) pair the ladder
builder emits whose price is positive comes from some level index `i` and
satisfies `quantity * price ≤ allocations[i]`. -/
theorem C3_no_overspend (base_price : ℤ) (level_step_perc : ℚ)
    (position_sizes : List ℚ) (quantity_precision : ℕ) (min_order_size : ℚ)
    (pq : ℤ × ℚ)
    (hmem : pq ∈ build_ladder base_price level_step_perc position_sizes
        quantity_precision min_order_size)
    (hpos : 0 < pq.1) :
    ∃ i, i < position_sizes.length ∧
      pq.1 = ladder_price base_price level_step_perc i ∧
      pq.2 = level_quantity (position_sizes.getD i 0) pq.1 quantity_precision ∧
      pq.2 * (pq.1 : ℚ) ≤ position_sizes.getD i 0 := by
  obtain ⟨i, hi, hq, rfl⟩ := mem_build_ladder.mp hmem
  exact ⟨i, hi, rfl, rfl, level_quantity_mul_le _ _ _ hpos⟩

/-- C3 witness: allocations [1, 2, 4], base price 100, step 5%, precision 2,
minimum size 0.01; the first emitted level (100, 0.01) never overspends. -/
theorem C3_witness :
    ∃ i, i < ([(1:ℚ), 2, 4]).length ∧
      ((100:ℤ), (1:ℚ)/100).1 = ladder_price 100 5 i ∧
      ((100:ℤ), (1:ℚ)/100).2 =
        level_quantity (([(1:ℚ), 2, 4]).getD i 0) ((100:ℤ), (1:ℚ)/100).1 2 ∧
      ((100:ℤ), (1:ℚ)/100).2 * (((100:ℤ), (1:ℚ)/100).1 : ℚ) ≤
        ([(1:ℚ), 2, 4]).getD i 0 := by
  have hp : ladder_price 100 5 0 = 100 := by
    unfold ladder_price step_value
    norm_num
  have hq : level_quantity (([(1:ℚ), 2, 4]).getD 0 0) (ladder_price 100 5 0) 2
      = 1/100 := by
    rw [hp]
    show level_quantity 1 100 2 = 1/100
    unfold level_quantity
    norm_num
  have hmem : ((100:ℤ), (1:ℚ)/100) ∈ build_ladder 100 5 [1, 2, 4] 2 (1/100) :=
    mem_build_ladder.mpr ⟨0, by norm_num, by rw [hq], by rw [hq, hp]⟩
  exact C3_no_overspend 100 5 [1, 2, 4] 2 (1/100) (100, 1/100) hmem (by norm_num)

/-- C4: Minimum-size filter — every level the ladder builder emits (and hence
every level passed to `place_buy_order`) has quantity ≥ `min_order_size`, and
the emitted levels are exactly the level indices whose truncated quantity
passes the test, each carrying its own untouched price and quantity (levels
below the minimum are dropped, never clamped up, and no allocation is
redistributed). -/
theorem C4_min_size_filter (base_price : ℤ) (level_step_perc : ℚ)
    (position_sizes : List ℚ) (quantity_precision : ℕ) (min_order_size : ℚ) :
    (∀ pq ∈ build_ladder base_price level_step_perc position_sizes
        quantity_precision min_order_size, min_order_size ≤ pq.2) ∧
    (∀ pq : ℤ × ℚ,
      pq ∈ build_ladder base_price level_step_perc position_sizes
          quantity_precision min_order_size ↔
      ∃ i, i < position_sizes.length ∧
        min_order_size ≤ level_quantity (position_sizes.getD i 0)
          (ladder_price base_price level_step_perc i) quantity_precision ∧
        pq = (ladder_price base_price level_step_perc i,
              level_quantity (position_sizes.getD i 0)
                (ladder_price base_price level_step_perc i)
                quantity_precision)) := by
  constructor
  · intro pq hmem
    obtain ⟨i, hi, hq, rfl⟩ := mem_build_ladder.mp hmem
    exact hq
  · intro pq
    exact mem_build_ladder

/-- C4 witness: with the spec's end-to-end allocations (1000/7, 2000/7,
4000/7) the first emitted level has quantity 1.42 ≥ 0.01. -/
theorem C4_witness : (1:ℚ)/100 ≤ ((100:ℤ), (71:ℚ)/50).2 := by
  have hp : ladder_price 100 5 0 = 100 := by
    unfold ladder_price step_value
    norm_num
  have hq : level_quantity (([(1000:ℚ)/7, 2000/7, 4000/7]).getD 0 0)
      (ladder_price 100 5 0) 2 = 71/50 := by
    rw [hp]
    show level_quantity (1000/7) 100 2 = 71/50
    unfold level_quantity
    norm_num
  have hmem : ((100:ℤ), (71:ℚ)/50) ∈
      build_ladder 100 5 [1000/7, 2000/7, 4000/7] 2 (1/100) :=
    mem_build_ladder.mpr ⟨0, by norm_num, by rw [hq]; norm_num, by rw [hq, hp]⟩
  exact (C4_min_size_filter 100 5 [1000/7, 2000/7, 4000/7] 2 (1/100)).1
    (100, 71/50) hmem

/-- C5: Ladder monotonic pricing — for base price ≥ 0 and step percentage
≥ 0, ladder prices are non-increasing with depth: `i < j` implies
`price(j) ≤ price(i)`. -/
theorem C5_ladder_monotonic (base_price : ℤ) (level_step_perc : ℚ) (i j : ℕ)
    (hb : 0 ≤ base_price) (hsp : 0 ≤ level_step_perc) (hij : i < j) :
    ladder_price base_price level_step_perc j ≤
      ladder_price base_price level_step_perc i := by
  have hsv : 0 ≤ step_value base_price level_step_perc := by
    apply Int.le_floor.mpr
    push_cast
    exact mul_nonneg (by exact_mod_cast hb) (div_nonneg hsp (by norm_num))
  have hmul : (i:ℤ) * step_value base_price level_step_perc ≤
      (j:ℤ) * step_value base_price level_step_perc :=
    mul_le_mul_of_nonneg_right (by exact_mod_cast hij.le) hsv
  unfold ladder_price
  linarith

/-- C5 witness: base price 100, step 5%: level 1 is priced 95 ≤ 100. -/
theorem C5_witness : ladder_price 100 5 1 ≤ ladder_price 100 5 0 :=
  C5_ladder_monotonic 100 5 0 1 (by norm_num) (by norm_num) (by norm_num)

/-- C6 counterexample: with balance 0 (allowed by the claim's `balance ≥ 0`),
2 levels and multiple 2 (> 1), the allocations are [0, 0], which is not
strictly increasing. -/
theorem C6_counterexample :
    calculate_position_sizing 0 2 2 = some [0, 0] ∧
    ¬ List.Chain' (· < ·) [(0:ℚ), 0] ∧
    (0:ℚ) ≤ 0 ∧ (1:ℤ) ≤ 2 ∧ (1:ℚ) < 2 := by
  refine ⟨?_, by simp, by norm_num, by norm_num, by norm_num⟩
  unfold calculate_position_sizing
  norm_num [show (2:ℤ).toNat = 2 from rfl, List.range_succ]

/-- C6 (amended): for balance > 0 (not merely ≥ 0), levels ≥ 1 and
multiple > 1, the allocations are strictly increasing with depth; for
multiple = 1 (and any balance ≥ 0) all allocations are equal. -/
theorem C6_sizing_monotonicity (balance : ℚ) (no_of_levels : ℤ)
    (iceberg_multiple : ℚ) (hlv : 1 ≤ no_of_levels) :
    (0 < balance → 1 < iceberg_multiple →
      ∃ allocs, calculate_position_sizing balance no_of_levels iceberg_multiple
          = some allocs ∧ List.Chain' (· < ·) allocs) ∧
    (0 ≤ balance → iceberg_multiple = 1 →
      ∃ allocs, calculate_position_sizing balance no_of_levels iceberg_multiple
          = some allocs ∧ ∀ x ∈ allocs, ∀ y ∈ allocs, x = y) := by
  constructor
  · intro hb hm1
    have hm0 : (0:ℚ) < iceberg_multiple := lt_trans zero_lt_one hm1
    refine ⟨_, calculate_position_sizing_eq _ _ _ hlv hm0, ?_⟩
    have hn : no_of_levels.toNat ≠ 0 := by omega
    have hpos := weights_sum_pos no_of_levels.toNat hn iceberg_multiple hm0
    have hps : 0 < balance /
        ((List.range no_of_levels.toNat).map (fun i => iceberg_multiple ^ i)).sum :=
      div_pos hb hpos
    rw [List.map_map]
    rw [List.chain'_map]
    obtain ⟨k, hk⟩ : ∃ k, no_of_levels.toNat = k + 1 :=
      ⟨no_of_levels.toNat - 1, by omega⟩
    rw [hk]
    refine (List.chain'_range_succ _ k).mpr (fun t ht => ?_)
    simp only [Function.comp_apply]
    apply mul_lt_mul_of_pos_right _ (by rw [hk] at hps; exact hps)
    calc iceberg_multiple ^ t = iceberg_multiple ^ t * 1 := (mul_one _).symm
      _ < iceberg_multiple ^ t * iceberg_multiple :=
          mul_lt_mul_of_pos_left hm1 (pow_pos hm0 t)
      _ = iceberg_multiple ^ (t + 1) := (pow_succ _ _).symm
  · intro hb0 hm1
    subst hm1
    refine ⟨_, calculate_position_sizing_eq _ _ _ hlv one_pos, ?_⟩
    intro x hx y hy
    simp only [List.mem_map, List.mem_range] at hx hy
    obtain ⟨a, ⟨i2, hi2, rfl⟩, rfl⟩ := hx
    obtain ⟨b, ⟨j2, hj2, rfl⟩, rfl⟩ := hy
    simp [one_pow]

/-- C6 witness: balance 1000, 3 levels, multiple 2 gives strictly increasing
allocations. -/
theorem C6_witness :
    (1:ℤ) ≤ 3 ∧
    ∃ allocs, calculate_position_sizing 1000 3 2 = some allocs ∧
      List.Chain' (· < ·) allocs :=
  ⟨by norm_num,
    (C6_sizing_monotonicity 1000 3 2 (by norm_num)).1 (by norm_num) (by norm_num)⟩

/-- C7: TimeSpec parsing correctness — an input whose leading token is a
non-empty digit block followed by a unit in {s, m, h, d} parses to the
decoded integer times the unit's seconds, ignoring trailing characters; in
particular parse "1h" = 3600, parse "2d" = 172800, parse "30m" = 1800 and
parse "45s" = 45. -/
theorem C7_timespec_parse (ds : List Char) (u : Char) (rest : List Char)
    (k : ℕ) (hne : ds ≠ []) (hds : ∀ c ∈ ds, isDigitChar c = true)
    (hu : u ∈ (['s', 'm', 'h', 'd'] : List Char)) (hk : unit_map u = some k) :
    get_time_in_seconds (ds ++ u :: rest) = some (digitsToNat ds * k) ∧
    get_time_in_seconds ['1', 'h'] = some 3600 ∧
    get_time_in_seconds ['2', 'd'] = some 172800 ∧
    get_time_in_seconds ['3', '0', 'm'] = some 1800 ∧
    get_time_in_seconds ['4', '5', 's'] = some 45 := by
  refine ⟨?_, by decide, by decide, by decide, by decide⟩
  have hcase : u = 's' ∨ u = 'm' ∨ u = 'h' ∨ u = 'd' := by simpa using hu
  have hud : isDigitChar u = false := by
    rcases hcase with rfl | rfl | rfl | rfl <;> decide
  have huc : u ∈ td_re_unit_class := by
    rcases hcase with rfl | rfl | rfl | rfl <;> decide
  obtain ⟨ht, hd⟩ := takeWhile_append_cons isDigitChar ds u rest hds hud
  have hmatch : td_re_match (ds ++ u :: rest) = some (digitsToNat ds, u) := by
    unfold td_re_match
    rw [ht, hd]
    cases ds with
    | nil => exact absurd rfl hne
    | cons a t => simp [huc]
  unfold get_time_in_seconds
  rw [hmatch]
  show (unit_map u).map (fun sec => digitsToNat ds * sec) = some (digitsToNat ds * k)
  rw [hk]
  rfl

/-- C7 witness: "45sx" parses to 45 * 1 seconds, trailing `x` ignored. -/
theorem C7_witness :
    get_time_in_seconds (['4', '5'] ++ 's' :: ['x'])
      = some (digitsToNat ['4', '5'] * 1) :=
  (C7_timespec_parse ['4', '5'] 's' ['x'] 1 (by decide) (by decide)
    (by decide) (by decide)).1

/-- C8: TimeSpec parsing failure — the parser fails (raises, modelled as
`none`) exactly on the inputs whose leading token does not match the
specification pattern `^([0-9]+)([smhd])`.  (The concrete Python exception
differs between the two failure modes — `AttributeError` on a failed regex
match, `KeyError` on the unit `|` accepted by the buggy character class
`[h|m|s|d]` — but the failure condition is exactly the spec's.) -/
theorem C8_timespec_failure (input_str : List Char) :
    get_time_in_seconds input_str = none ↔
      spec_leading_token_matches input_str = false := by
  unfold get_time_in_seconds td_re_match spec_leading_token_matches
  cases h1 : input_str.takeWhile isDigitChar with
  | nil => simp
  | cons a t =>
    cases h2 : input_str.dropWhile isDigitChar with
    | nil => simp
    | cons c r =>
      by_cases hc : c ∈ td_re_unit_class
      · have hcase : c = 'h' ∨ c = '|' ∨ c = 'm' ∨ c = 's' ∨ c = 'd' := by
          simpa [td_re_unit_class] using hc
        rcases hcase with rfl | rfl | rfl | rfl | rfl <;>
          simp [hc, unit_map]
      · have hn4 : c ∉ (['s', 'm', 'h', 'd'] : List Char) := by
          intro hmem
          apply hc
          simp only [List.mem_cons, List.not_mem_nil, or_false] at hmem
          simp only [td_re_unit_class, List.mem_cons, List.not_mem_nil, or_false]
          tauto
        simp [hc, hn4]

/-- C9 counterexample: with levels = 2 (≥ 1) and multiple = -1 the weight
sum is 1 + (-1) = 0, so the `Decimal` division raises instead of returning
allocations — "for every multiple, levels ≥ 1 succeeds" is false. -/
theorem C9_counterexample :
    calculate_position_sizing 1 2 (-1) = none ∧ (1:ℤ) ≤ 2 := by
  refine ⟨?_, by norm_num⟩
  unfold calculate_position_sizing
  norm_num [show (2:ℤ).toNat = 2 from rfl, List.range_succ]

/-- C9 (amended): for every balance and multiple, levels < 1 makes
`calculate_position_sizing` fail; and for levels ≥ 1 it succeeds with
exactly `levels` allocations provided the multiple is positive (a zero
multiple raises on `0 ** 0`, and a negative multiple can zero the weight
sum and raise on the division). -/
theorem C9_levels_precondition (balance : ℚ) (no_of_levels : ℤ)
    (iceberg_multiple : ℚ) :
    (no_of_levels < 1 →
      calculate_position_sizing balance no_of_levels iceberg_multiple = none) ∧
    (1 ≤ no_of_levels → 0 < iceberg_multiple →
      ∃ allocs, calculate_position_sizing balance no_of_levels iceberg_multiple
          = some allocs ∧ (allocs.length : ℤ) = no_of_levels) := by
  constructor
  · intro hlt
    have hn : no_of_levels.toNat = 0 := by omega
    unfold calculate_position_sizing
    simp [hn]
  · intro hlv hm
    refine ⟨_, calculate_position_sizing_eq balance no_of_levels
      iceberg_multiple hlv hm, ?_⟩
    simp only [List.length_map, List.length_range]
    omega

/-- C9 witness: levels 0 fails; levels 3 with multiple 2 returns 3
allocations. -/
theorem C9_witness :
    calculate_position_sizing 5 0 2 = none ∧
    ∃ allocs, calculate_position_sizing 5 3 2 = some allocs ∧
      (allocs.length : ℤ) = 3 :=
  ⟨(C9_levels_precondition 5 0 2).1 (by norm_num),
   (C9_levels_precondition 5 3 2).2 (by norm_num) (by norm_num)⟩

/-- C10: the balance fed to the position sizer each cycle is the gateway's
usable fiat balance rounded half-even to 2 decimal places, the allocations
sum to this rounded balance, the rounding moves the balance by at most
0.005 fiat units, and that bound is attained. -/
theorem C10_rounded_balance (raw_balance : ℚ) (no_of_levels : ℤ)
    (iceberg_multiple : ℚ) (hlv : 1 ≤ no_of_levels)
    (hm : 1 ≤ iceberg_multiple) :
    strategy_balance raw_balance = round2 raw_balance ∧
    (∃ allocs, strategy_position_sizes raw_balance no_of_levels iceberg_multiple
        = some allocs ∧ allocs.sum = round2 raw_balance) ∧
    |round2 raw_balance - raw_balance| ≤ 1/200 ∧
    ∃ r : ℚ, |round2 r - r| = 1/200 := by
  refine ⟨rfl, ?_, ?_, ⟨1/200, ?_⟩⟩
  · exact calculate_position_sizing_sum (round2 raw_balance) no_of_levels
      iceberg_multiple hlv (zero_lt_one.trans_le hm)
  · have h := abs_roundHalfEven_sub_le (raw_balance * 100)
    unfold round2
    have heq : (roundHalfEven (raw_balance * 100) : ℚ)/100 - raw_balance
        = ((roundHalfEven (raw_balance * 100) : ℚ) - raw_balance * 100)/100 := by
      ring
    rw [heq, abs_div, abs_of_pos (show (0:ℚ) < 100 by norm_num),
      div_le_iff₀ (show (0:ℚ) < 100 by norm_num)]
    linarith
  · have hz : round2 (1/200) = 0 := by
      unfold round2 roundHalfEven
      norm_num
    rw [hz, zero_sub, abs_neg, abs_of_pos (by norm_num : (0:ℚ) < 1/200)]

/-- C10 witness: raw balance 1234.567, 2 levels, multiple 2. -/
theorem C10_witness :
    (1:ℤ) ≤ 2 ∧ (1:ℚ) ≤ 2 ∧
    (strategy_balance (1234567/1000) = round2 (1234567/1000) ∧
     (∃ allocs, strategy_position_sizes (1234567/1000) 2 2 = some allocs ∧
        allocs.sum = round2 (1234567/1000)) ∧
     |round2 (1234567/1000) - 1234567/1000| ≤ 1/200 ∧
     ∃ r : ℚ, |round2 r - r| = 1/200) :=
  ⟨by norm_num, by norm_num,
    C10_rounded_balance (1234567/1000) 2 2 (by norm_num) (by norm_num)⟩
